import Mathlib

/-!
# Verification of the SwedenOS_ICS schedule parser

A shallow embedding of `parse_games` (and its helper regexes and constants)
from `scripts/generate_ics.py`, together with theorems settling the frozen
claims about it.

Modelling conventions:
* A line is a `String`, scanned as its `List Char`.  `fetch_lines` strips
  every line, so the anchors `^`/`$` of the three patterns are modelled as
  strict start/end of the string.
* The regex character classes `\d` and `[A-Z]` are modelled over the ASCII
  range (the inputs of interest are ASCII); `\s` is the ASCII whitespace set.
* Local datetimes are the triple (February day, hour, minute) of the fixed
  year 2026; absolute instants are minutes since 2026-01-01 00:00 UTC.
  February 2026 in Europe/Rome is CET, a constant UTC+1 offset, so
  `astimezone(UTC)` subtracts 60 minutes.
* Fallible Python operations (`datetime(...)` with an out-of-range day,
  `.replace(...)` with an out-of-range hour or minute raise `ValueError`)
  make the parser return `Option`: `none` models the scan aborting with an
  exception.
* The dict comprehension `{g.uid: g for g in games}` is modelled by
  `dedupByUid`: keys keep their first-insertion position, the value kept for
  a duplicated key is the last one written.
* Python's stable `sorted` by the start timestamp is `List.insertionSort`,
  which is also stable.
-/

/-- ASCII decimal digit, modelling the regex class `\d`. -/
def isDig (c : Char) : Bool := 48 ≤ c.toNat && c.toNat ≤ 57

/-- ASCII uppercase letter, modelling the regex class `[A-Z]`. -/
def isUp (c : Char) : Bool := 65 ≤ c.toNat && c.toNat ≤ 90

/-- ASCII whitespace, modelling the regex class `\s`. -/
def chSpace (c : Char) : Bool :=
  c = ' ' || c = '\t' || c = '\n' || c = '\r' || c = '\x0b' || c = '\x0c'

/-- Numeric value of an ASCII digit character. -/
def digitVal (c : Char) : Nat := c.toNat - 48

/-- Consume one or more whitespace characters (`\s+`); `none` if the first
character is not whitespace. -/
def dropSpaces1 : List Char → Option (List Char)
  | [] => none
  | c :: rest => if chSpace c then some (dropSpacesAll rest) else none
where
  dropSpacesAll : List Char → List Char
    | [] => []
    | c :: rest => if chSpace c then dropSpacesAll rest else c :: rest

/-- After the day digits of `DATE_RE`: require `\s+Feb$`. -/
def dateTail (day : Nat) (rest : List Char) : Option Nat :=
  match dropSpaces1 rest with
  | some r => if r = ['F', 'e', 'b'] then some day else none
  | none => none

/-- `DATE_RE = ^(?P<day>\d{1,2})\s+Feb$`, returning the day value. -/
def matchDateL : List Char → Option Nat
  | [] => none
  | c1 :: rest =>
    if isDig c1 then
      match rest with
      | c2 :: rest2 =>
        if isDig c2 then dateTail (10 * digitVal c1 + digitVal c2) rest2
        else dateTail (digitVal c1) rest
      | [] => none
    else none

def matchDate (s : String) : Option Nat := matchDateL s.data

/-- After the colon of `TIME_RE`: require exactly two digits then end. -/
def timeMin : List Char → Option Nat
  | [c1, c2] => if isDig c1 && isDig c2 then some (10 * digitVal c1 + digitVal c2) else none
  | _ => none

/-- `TIME_RE = ^(?P<h>\d{1,2}):(?P<m>\d{2})$`, returning (hour, minute). -/
def matchTimeL : List Char → Option (Nat × Nat)
  | c1 :: c2 :: rest =>
    if isDig c1 then
      if isDig c2 then
        match rest with
        | ':' :: rest2 => (timeMin rest2).map (fun m => (10 * digitVal c1 + digitVal c2, m))
        | _ => none
      else if c2 = ':' then
        (timeMin rest).map (fun m => (digitVal c1, m))
      else none
    else none
  | _ => none

def matchTime (s : String) : Option (Nat × Nat) := matchTimeL s.data

/-- Three uppercase letters (`[A-Z]{3}`), returning the code and the rest. -/
def code3 : List Char → Option (String × List Char)
  | c1 :: c2 :: c3 :: rest =>
    if isUp c1 && isUp c2 && isUp c3 then some (String.mk [c1, c2, c3], rest) else none
  | _ => none

/-- The literal `vs` followed by `\s+`. -/
def vsTail : List Char → Option (List Char)
  | 'v' :: 's' :: rest => dropSpaces1 rest
  | _ => none

/-- `MATCH_RE = ^(?P<a>[A-Z]{3})\s+vs\s+(?P<b>[A-Z]{3})$`, returning (a, b). -/
def matchMatchL (cs : List Char) : Option (String × String) :=
  match code3 cs with
  | some (a, r1) =>
    match dropSpaces1 r1 with
    | some r2 =>
      match vsTail r2 with
      | some r3 =>
        match code3 r3 with
        | some (b, r4) => if r4 = [] then some (a, b) else none
        | none => none
      | none => none
    | none => none
  | none => none

def matchMatch (s : String) : Option (String × String) := matchMatchL s.data

/-- `needle` occurs at the start of `hay`. -/
def startsWithL : List Char → List Char → Bool
  | [], _ => true
  | _ :: _, [] => false
  | n :: ns, h :: hs => n = h && startsWithL ns hs

/-- `needle` occurs somewhere inside `hay` (Python `needle in hay`). -/
def containsSub (needle : List Char) : List Char → Bool
  | [] => startsWithL needle []
  | h :: hs => startsWithL needle (h :: hs) || containsSub needle hs

/-- The `Game` dataclass of `generate_ics.py`. -/
structure Game where
  uid : String
  dtstart_utc : Int
  dtend_utc : Int
  summary : String
  location : Option String := none
deriving DecidableEq, Repr

/-- `DEFAULT_GAME_DURATION = timedelta(hours=2, minutes=30)`, in minutes. -/
def DEFAULT_GAME_DURATION : Int := 150

/-- `strftime`-style zero padding to two digits. -/
def pad2 (n : Nat) : String := if n < 10 then "0" ++ toString n else toString n

/-- Absolute UTC instant (minutes since 2026-01-01 00:00 UTC) of the local
wall-clock time `day` Feb 2026, `hh`:`mm` in Europe/Rome (CET, UTC+1). -/
def localToUTC (day hh mm : Nat) : Int :=
  ((31 + (day : Int) - 1) * 1440 + (hh : Int) * 60 + (mm : Int)) - 60

/-- `uid = f"{start_local.strftime('%Y%m%dT%H%M')}-{a}vs{b}@lundblaad.github.io"`. -/
def uidOf (day hh mm : Nat) (a b : String) : String :=
  "2026" ++ "02" ++ pad2 day ++ "T" ++ pad2 hh ++ pad2 mm ++ "-" ++ a ++ "vs" ++ b
    ++ "@lundblaad.github.io"

/-- `opponent = b if a == "SWE" else a; summary = f"Sweden vs {opponent} (Men's Ice Hockey)"`. -/
def summaryOf (a b : String) : String :=
  "Sweden vs " ++ (if a = "SWE" then b else a) ++ " (Men's Ice Hockey)"

/-- The `Game` record appended by one successful iteration of the scan. -/
def mkGame (day hh mm : Nat) (a b : String) (venue : Option String) : Game :=
  { uid := uidOf day hh mm a b
    dtstart_utc := localToUTC day hh mm
    dtend_utc := localToUTC day hh mm + DEFAULT_GAME_DURATION
    summary := summaryOf a b
    location := venue }

/-- `for j in range(1, 10)`: the time search looks at the 9 lines after the
matchup line. -/
def TIME_SEARCH_WINDOW : Nat := 9

/-- `for j in range(1, 6)`: the venue search looks at the 5 lines after the
matchup line. -/
def VENUE_SEARCH_WINDOW : Nat := 5

/-- The venue keyword allow-list of the best-effort venue detection. -/
def VENUE_KEYWORDS : List String := ["Milano", "Cortina", "Arena", "Ice", "Forum"]

def hasVenueKeyword (s : String) : Bool :=
  VENUE_KEYWORDS.any (fun k => containsSub k.data s.data)

/-- First line matching `TIME_RE` among the next `TIME_SEARCH_WINDOW` lines. -/
def findTime (rest : List String) : Option (Nat × Nat) :=
  (rest.take TIME_SEARCH_WINDOW).findSome? matchTime

/-- First line containing a venue keyword among the next
`VENUE_SEARCH_WINDOW` lines. -/
def findVenue (rest : List String) : Option String :=
  (rest.take VENUE_SEARCH_WINDOW).find? hasVenueKeyword

/-- The `while i < len(lines)` scan of `parse_games`.  `cur` is
`current_date_local` (only the February day matters: the rest of the date is
fixed and the time is overwritten before use).  `none` as result models the
scan raising `ValueError`: at a date line whose day is not a valid February
2026 day (`datetime(YEAR, 2, day)`), or at `replace(hour=hh, minute=mm)`
with an hour above 23 or a minute above 59. -/
def parseLoop : List String → Option Nat → List Game → Option (List Game)
  | [], _, acc => some acc
  | l :: rest, cur, acc =>
    match matchDate l with
    | some day =>
      if 1 ≤ day ∧ day ≤ 28 then parseLoop rest (some day) acc else none
    | none =>
      match matchMatch l, cur with
      | some (a, b), some day =>
        if a ≠ "SWE" ∧ b ≠ "SWE" then parseLoop rest cur acc
        else
          match findTime rest with
          | none => parseLoop rest cur acc
          | some (hh, mm) =>
            if hh ≤ 23 ∧ mm ≤ 59 then
              parseLoop rest cur (acc ++ [mkGame day hh mm a b (findVenue rest)])
            else none
      | _, _ => parseLoop rest cur acc

/-- One step of building `{g.uid: g for g in games}`: if the key is present,
overwrite its value in place; otherwise append at the end. -/
def upsert : List Game → Game → List Game
  | [], g => [g]
  | h :: t, g => if h.uid = g.uid then g :: t else h :: upsert t g

/-- `uniq = {g.uid: g for g in games}` followed by `uniq.values()`:
first-insertion key order, last-written value per key. -/
def dedupByUid (gs : List Game) : List Game := gs.foldl upsert []

/-- The comparison underlying `sorted(..., key=lambda g: g.dtstart_utc)`. -/
def gameLE (g1 g2 : Game) : Prop := g1.dtstart_utc ≤ g2.dtstart_utc

instance : DecidableRel gameLE :=
  fun g1 g2 => inferInstanceAs (Decidable (g1.dtstart_utc ≤ g2.dtstart_utc))

instance : IsTotal Game gameLE :=
  ⟨fun a b => Int.le_total a.dtstart_utc b.dtstart_utc⟩

instance : IsTrans Game gameLE :=
  ⟨fun _ _ _ h1 h2 => Int.le_trans h1 h2⟩

/-- `parse_games`: scan, then deduplicate by uid, then stable-sort by start
(`List.insertionSort` is a stable sort, as is Python's `sorted`). -/
def parse_games (lines : List String) : Option (List Game) :=
  (parseLoop lines none []).map (fun gs => List.insertionSort gameLE (dedupByUid gs))

/-- `dateOk l`: if `l` matches `DATE_RE`, its day is a valid February day. -/
def dateOk (l : String) : Bool := (matchDate l).all (fun d => 1 ≤ d && d ≤ 28)

/-- `timeOk l`: if `l` matches `TIME_RE`, its hour and minute are in range. -/
def timeOk (l : String) : Bool := (matchTime l).all (fun hm => hm.1 ≤ 23 && hm.2 ≤ 59)

/-- Every date-marker line in the input carries a valid February day. -/
def datesValid (lines : List String) : Prop := ∀ l ∈ lines, dateOk l = true

/-- Every time-pattern line in the input carries a valid hour and minute. -/
def timesValid (lines : List String) : Prop := ∀ l ∈ lines, timeOk l = true


instance (lines : List String) : Decidable (datesValid lines) :=
  inferInstanceAs (Decidable (∀ l ∈ lines, dateOk l = true))

instance (lines : List String) : Decidable (timesValid lines) :=
  inferInstanceAs (Decidable (∀ l ∈ lines, timeOk l = true))

theorem isUp_not_isDig (c : Char) (h : isUp c = true) : isDig c = false := by
  simp only [isUp, Bool.and_eq_true, decide_eq_true_eq] at h
  have h57 : ¬ c.toNat ≤ 57 := by omega
  simp [isDig, h57]

theorem code3_shape (cs : List Char) (p : String × List Char) (h : code3 cs = some p) :
    ∃ c1 c2 c3 r, cs = c1 :: c2 :: c3 :: r ∧ isUp c1 = true := by
  match cs with
  | [] => simp [code3] at h
  | [c1] => simp [code3] at h
  | [c1, c2] => simp [code3] at h
  | c1 :: c2 :: c3 :: r =>
    refine ⟨c1, c2, c3, r, rfl, ?_⟩
    simp only [code3] at h
    split at h
    · rename_i hcond
      simp only [Bool.and_eq_true] at hcond
      exact hcond.1.1
    · exact absurd h (by simp)

/-- A line matching `MATCH_RE` (uppercase first character) cannot match
`DATE_RE` (digit first character), so the scan takes the matchup branch. -/
theorem matchDate_eq_none_of_matchMatch (l : String) (p : String × String)
    (h : matchMatch l = some p) : matchDate l = none := by
  unfold matchMatch matchMatchL at h
  cases hc : code3 l.data with
  | none => rw [hc] at h; exact absurd h (by simp)
  | some q =>
    obtain ⟨c1, c2, c3, r, hcs, hup⟩ := code3_shape _ _ hc
    unfold matchDate
    rw [hcs]
    simp [matchDateL, isUp_not_isDig c1 hup]

/-- Step: a date-marker line with a valid February day updates the date
context and consumes one line. -/
theorem parseLoop_date_step {l : String} {rest : List String} {cur : Option Nat}
    {acc : List Game} {day : Nat} (hd : matchDate l = some day)
    (hday : 1 ≤ day ∧ day ≤ 28) :
    parseLoop (l :: rest) cur acc = parseLoop rest (some day) acc := by
  simp [parseLoop, hd, hday.1, hday.2]

/-- Step: a date-marker line with an invalid day aborts the scan
(`datetime(YEAR, 2, day)` raises `ValueError`). -/
theorem parseLoop_date_bad {l : String} {rest : List String} {cur : Option Nat}
    {acc : List Game} {day : Nat} (hd : matchDate l = some day)
    (hday : ¬(1 ≤ day ∧ day ≤ 28)) :
    parseLoop (l :: rest) cur acc = none := by
  simp only [parseLoop, hd]
  rw [if_neg hday]

/-- Step: a line that is neither a date marker nor a matchup is skipped. -/
theorem parseLoop_other {l : String} {rest : List String} {cur : Option Nat}
    {acc : List Game} (hd : matchDate l = none) (hm : matchMatch l = none) :
    parseLoop (l :: rest) cur acc = parseLoop rest cur acc := by
  simp [parseLoop, hd, hm]

/-- Step: a matchup line seen before any date marker is silently skipped
with the state unchanged. -/
theorem parseLoop_match_noCur {l : String} {rest : List String} {acc : List Game}
    {a b : String} (hm : matchMatch l = some (a, b)) :
    parseLoop (l :: rest) none acc = parseLoop rest none acc := by
  have hd := matchDate_eq_none_of_matchMatch l (a, b) hm
  simp [parseLoop, hd, hm]

/-- Step: a matchup line not involving the target team is skipped. -/
theorem parseLoop_skip_notSWE {l : String} {rest : List String} {acc : List Game}
    {a b : String} {day : Nat} (hm : matchMatch l = some (a, b))
    (hsw : a ≠ "SWE" ∧ b ≠ "SWE") :
    parseLoop (l :: rest) (some day) acc = parseLoop rest (some day) acc := by
  have hd := matchDate_eq_none_of_matchMatch l (a, b) hm
  simp only [parseLoop, hd, hm]
  rw [if_pos hsw]

/-- Step: a matchup line with a date context but no time line within the
search window records nothing and consumes one line. -/
theorem parseLoop_skip_noTime {l : String} {rest : List String} {acc : List Game}
    {a b : String} {day : Nat} (hm : matchMatch l = some (a, b))
    (ht : findTime rest = none) :
    parseLoop (l :: rest) (some day) acc = parseLoop rest (some day) acc := by
  have hd := matchDate_eq_none_of_matchMatch l (a, b) hm
  by_cases hsw : a ≠ "SWE" ∧ b ≠ "SWE"
  · simp only [parseLoop, hd, hm]
    rw [if_pos hsw]
  · simp only [parseLoop, hd, hm]
    rw [if_neg hsw, ht]

/-- Step: a target-team matchup with a date context, an in-window time line
and in-range hour/minute records exactly one `Game` and consumes one line. -/
theorem parseLoop_record {l : String} {rest : List String} {acc : List Game}
    {a b : String} {day hh mm : Nat} (hm : matchMatch l = some (a, b))
    (hsw : ¬(a ≠ "SWE" ∧ b ≠ "SWE")) (ht : findTime rest = some (hh, mm))
    (hok : hh ≤ 23 ∧ mm ≤ 59) :
    parseLoop (l :: rest) (some day) acc
      = parseLoop rest (some day) (acc ++ [mkGame day hh mm a b (findVenue rest)]) := by
  have hd := matchDate_eq_none_of_matchMatch l (a, b) hm
  simp only [parseLoop, hd, hm]
  rw [if_neg hsw]
  simp only [ht]
  rw [if_pos hok]

/-- Step: a target-team matchup whose found time line has an out-of-range
hour or minute aborts the scan (`replace(...)` raises `ValueError`). -/
theorem parseLoop_time_bad {l : String} {rest : List String} {acc : List Game}
    {a b : String} {day hh mm : Nat} (hm : matchMatch l = some (a, b))
    (hsw : ¬(a ≠ "SWE" ∧ b ≠ "SWE")) (ht : findTime rest = some (hh, mm))
    (hbad : ¬(hh ≤ 23 ∧ mm ≤ 59)) :
    parseLoop (l :: rest) (some day) acc = none := by
  have hd := matchDate_eq_none_of_matchMatch l (a, b) hm
  simp only [parseLoop, hd, hm]
  rw [if_neg hsw]
  simp only [ht]
  rw [if_neg hbad]

/-- Provenance invariant of the scan: every game in a successful result is
either inherited from the accumulator or was built by `mkGame` from a valid
February day, an in-range time, and a matchup involving `SWE`. -/
theorem parseLoop_shape : ∀ (lines : List String) (cur : Option Nat) (acc out : List Game),
    (∀ d, cur = some d → 1 ≤ d ∧ d ≤ 28) →
    parseLoop lines cur acc = some out →
    ∀ g ∈ out, g ∈ acc ∨ ∃ day hh mm a b v,
      (1 ≤ day ∧ day ≤ 28) ∧ hh ≤ 23 ∧ mm ≤ 59 ∧ (a = "SWE" ∨ b = "SWE") ∧
      g = mkGame day hh mm a b v
  | [], _cur, acc, out, _hcur, h, g, hg => by
    simp only [parseLoop, Option.some.injEq] at h
    subst h
    exact Or.inl hg
  | l :: rest, cur, acc, out, hcur, h, g, hg => by
    cases hd : matchDate l with
    | some day =>
      by_cases hday : 1 ≤ day ∧ day ≤ 28
      · rw [parseLoop_date_step hd hday] at h
        exact parseLoop_shape rest (some day) acc out
          (fun d hdd => by cases hdd; exact hday) h g hg
      · rw [parseLoop_date_bad hd hday] at h
        cases h
    | none =>
      cases hm : matchMatch l with
      | none =>
        rw [parseLoop_other hd hm] at h
        exact parseLoop_shape rest cur acc out hcur h g hg
      | some p =>
        obtain ⟨a, b⟩ := p
        cases cur with
        | none =>
          rw [parseLoop_match_noCur hm] at h
          exact parseLoop_shape rest none acc out hcur h g hg
        | some day =>
          by_cases hsw : a ≠ "SWE" ∧ b ≠ "SWE"
          · rw [parseLoop_skip_notSWE hm hsw] at h
            exact parseLoop_shape rest (some day) acc out hcur h g hg
          · cases ht : findTime rest with
            | none =>
              rw [parseLoop_skip_noTime hm ht] at h
              exact parseLoop_shape rest (some day) acc out hcur h g hg
            | some hhmm =>
              obtain ⟨hh, mm⟩ := hhmm
              by_cases hok : hh ≤ 23 ∧ mm ≤ 59
              · rw [parseLoop_record hm hsw ht hok] at h
                rcases parseLoop_shape rest (some day) _ out hcur h g hg with hin | hex
                · rcases List.mem_append.mp hin with h1 | h2
                  · exact Or.inl h1
                  · right
                    have hswd : a = "SWE" ∨ b = "SWE" := by
                      by_contra hc
                      push_neg at hc
                      exact hsw ⟨hc.1, hc.2⟩
                    exact ⟨day, hh, mm, a, b, findVenue rest, hcur day rfl, hok.1, hok.2,
                      hswd, by simpa using h2⟩
                · exact Or.inr hex
              · rw [parseLoop_time_bad hm hsw ht hok] at h
                cases h

/-- Totality of the scan: when every date-marker line carries a valid
February day and every time-pattern line an in-range hour and minute, no
`ValueError` branch is reachable. -/
theorem parseLoop_total : ∀ (lines : List String) (cur : Option Nat) (acc : List Game),
    datesValid lines → timesValid lines → (parseLoop lines cur acc).isSome = true
  | [], _cur, acc, _, _ => by simp [parseLoop]
  | l :: rest, cur, acc, hdv, htv => by
    have hdv' : datesValid rest := fun s hs => hdv s (List.mem_cons_of_mem _ hs)
    have htv' : timesValid rest := fun s hs => htv s (List.mem_cons_of_mem _ hs)
    cases hd : matchDate l with
    | some day =>
      have hday : 1 ≤ day ∧ day ≤ 28 := by
        have h1 := hdv l (List.mem_cons_self _ _)
        rw [dateOk, hd] at h1
        simpa using h1
      rw [parseLoop_date_step hd hday]
      exact parseLoop_total rest (some day) acc hdv' htv'
    | none =>
      cases hm : matchMatch l with
      | none =>
        rw [parseLoop_other hd hm]
        exact parseLoop_total rest cur acc hdv' htv'
      | some p =>
        obtain ⟨a, b⟩ := p
        cases cur with
        | none =>
          rw [parseLoop_match_noCur hm]
          exact parseLoop_total rest none acc hdv' htv'
        | some day =>
          by_cases hsw : a ≠ "SWE" ∧ b ≠ "SWE"
          · rw [parseLoop_skip_notSWE hm hsw]
            exact parseLoop_total rest (some day) acc hdv' htv'
          · cases ht : findTime rest with
            | none =>
              rw [parseLoop_skip_noTime hm ht]
              exact parseLoop_total rest (some day) acc hdv' htv'
            | some hhmm =>
              obtain ⟨hh, mm⟩ := hhmm
              have ht' : (rest.take TIME_SEARCH_WINDOW).findSome? matchTime = some (hh, mm) := ht
              have hok : hh ≤ 23 ∧ mm ≤ 59 := by
                obtain ⟨s, hs, hms⟩ := List.exists_of_findSome?_eq_some ht'
                have hsl : s ∈ l :: rest := List.mem_cons_of_mem _ (List.mem_of_mem_take hs)
                have h1 := htv s hsl
                rw [timeOk, hms] at h1
                simpa using h1
              rw [parseLoop_record hm hsw ht hok]
              exact parseLoop_total rest (some day) _ hdv' htv'

theorem mem_upsert_weak : ∀ {l : List Game} {g g' : Game}, g' ∈ upsert l g → g' ∈ l ∨ g' = g := by
  intro l
  induction l with
  | nil =>
    intro g g' h
    simp only [upsert, List.mem_singleton] at h
    exact Or.inr h
  | cons hd tl ih =>
    intro g g' h
    simp only [upsert] at h
    split at h
    · rcases List.mem_cons.mp h with h1 | h2
      · exact Or.inr h1
      · exact Or.inl (List.mem_cons_of_mem _ h2)
    · rcases List.mem_cons.mp h with h1 | h2
      · exact Or.inl (by rw [h1]; exact List.mem_cons_self _ _)
      · rcases ih h2 with h3 | h4
        · exact Or.inl (List.mem_cons_of_mem _ h3)
        · exact Or.inr h4

theorem self_mem_upsert : ∀ (l : List Game) (g : Game), g ∈ upsert l g := by
  intro l g
  induction l with
  | nil => simp [upsert]
  | cons hd tl ih =>
    simp only [upsert]
    split
    · exact List.mem_cons_self _ _
    · exact List.mem_cons_of_mem _ ih

theorem mem_upsert_of_ne : ∀ {l : List Game} {g' g : Game},
    g' ∈ l → g'.uid ≠ g.uid → g' ∈ upsert l g := by
  intro l
  induction l with
  | nil =>
    intro g' g h _
    cases h
  | cons hd tl ih =>
    intro g' g h hne
    simp only [upsert]
    split
    · rename_i heq
      rcases List.mem_cons.mp h with h1 | h2
      · exact absurd (by rw [h1]; exact heq) hne
      · exact List.mem_cons_of_mem _ h2
    · rcases List.mem_cons.mp h with h1 | h2
      · rw [h1]; exact List.mem_cons_self _ _
      · exact List.mem_cons_of_mem _ (ih h2 hne)

theorem nodup_upsert : ∀ {l : List Game} {g : Game},
    (l.map Game.uid).Nodup → ((upsert l g).map Game.uid).Nodup := by
  intro l
  induction l with
  | nil =>
    intro g _
    simp [upsert]
  | cons hd tl ih =>
    intro g hnd
    simp only [List.map_cons, List.nodup_cons] at hnd
    obtain ⟨hni, hnd2⟩ := hnd
    simp only [upsert]
    split
    · rename_i heq
      simp only [List.map_cons, List.nodup_cons]
      exact ⟨by rw [← heq]; exact hni, hnd2⟩
    · rename_i hne
      simp only [List.map_cons, List.nodup_cons]
      refine ⟨?_, ih hnd2⟩
      intro hmem
      obtain ⟨x, hx, hxe⟩ := List.mem_map.mp hmem
      rcases mem_upsert_weak hx with h1 | h2
      · exact hni (hxe ▸ List.mem_map_of_mem _ h1)
      · rw [h2] at hxe
        exact hne hxe.symm

theorem mem_upsert_cases : ∀ {l : List Game} {g g' : Game},
    (l.map Game.uid).Nodup → g' ∈ upsert l g →
    g' = g ∨ (g' ∈ l ∧ g'.uid ≠ g.uid) := by
  intro l
  induction l with
  | nil =>
    intro g g' _ h
    simp only [upsert, List.mem_singleton] at h
    exact Or.inl h
  | cons hd tl ih =>
    intro g g' hnd h
    simp only [List.map_cons, List.nodup_cons] at hnd
    obtain ⟨hni, hnd2⟩ := hnd
    simp only [upsert] at h
    split at h
    · rename_i heq
      rcases List.mem_cons.mp h with h1 | h2
      · exact Or.inl h1
      · right
        refine ⟨List.mem_cons_of_mem _ h2, ?_⟩
        intro hgg
        apply hni
        rw [heq, ← hgg]
        exact List.mem_map_of_mem _ h2
    · rename_i hne
      rcases List.mem_cons.mp h with h1 | h2
      · right
        refine ⟨by rw [h1]; exact List.mem_cons_self _ _, ?_⟩
        rw [h1]
        exact hne
      · rcases ih hnd2 h2 with h3 | h4
        · exact Or.inl h3
        · exact Or.inr ⟨List.mem_cons_of_mem _ h4.1, h4.2⟩

theorem dedupByUid_append_single (gs : List Game) (x : Game) :
    dedupByUid (gs ++ [x]) = upsert (dedupByUid gs) x := by
  simp [dedupByUid, List.foldl_append]

/-- The uids of the deduplicated list are pairwise distinct. -/
theorem dedupByUid_nodup : ∀ gs : List Game, ((dedupByUid gs).map Game.uid).Nodup := by
  intro gs
  induction gs using List.reverseRecOn with
  | nil => simp [dedupByUid]
  | append_singleton gs x ih =>
    rw [dedupByUid_append_single]
    exact nodup_upsert ih

theorem dedupByUid_sub : ∀ {gs : List Game} {g : Game}, g ∈ dedupByUid gs → g ∈ gs := by
  intro gs
  induction gs using List.reverseRecOn with
  | nil =>
    intro g h
    simp [dedupByUid] at h
  | append_singleton gs x ih =>
    intro g h
    rw [dedupByUid_append_single] at h
    rcases mem_upsert_weak h with h1 | h2
    · exact List.mem_append_left _ (ih h1)
    · rw [h2]
      exact List.mem_append_right _ (List.mem_cons_self _ _)

/-- Last-written-wins: the survivor for a uid is the final scanned game with
that uid (the dict comprehension overwrites the value on key collision). -/
theorem dedupByUid_last : ∀ {gs : List Game} {g : Game}, g ∈ dedupByUid gs →
    (gs.filter (fun x => x.uid == g.uid)).getLast? = some g := by
  intro gs
  induction gs using List.reverseRecOn with
  | nil =>
    intro g h
    simp [dedupByUid] at h
  | append_singleton gs x ih =>
    intro g h
    rw [dedupByUid_append_single] at h
    rcases mem_upsert_cases (dedupByUid_nodup gs) h with h1 | h2
    · rw [h1, List.filter_append]
      have hx : List.filter (fun y => y.uid == x.uid) [x] = [x] := by simp
      rw [hx]
      exact List.getLast?_concat _
    · obtain ⟨hmem, hne⟩ := h2
      rw [List.filter_append]
      have hxf : (x.uid == g.uid) = false := beq_eq_false_iff_ne.mpr (fun hc => hne hc.symm)
      have hx : List.filter (fun y => y.uid == g.uid) [x] = [] := by
        simp [List.filter, hxf]
      rw [hx, List.append_nil]
      exact ih hmem

/-- Every uid scanned survives deduplication (with some value). -/
theorem dedupByUid_covers : ∀ {gs : List Game} {g : Game}, g ∈ gs →
    ∃ h, h ∈ dedupByUid gs ∧ h.uid = g.uid := by
  intro gs
  induction gs using List.reverseRecOn with
  | nil =>
    intro g h
    cases h
  | append_singleton gs x ih =>
    intro g hg
    rw [dedupByUid_append_single]
    rcases List.mem_append.mp hg with h1 | h2
    · obtain ⟨h0, hm0, he0⟩ := ih h1
      by_cases hx : h0.uid = x.uid
      · exact ⟨x, self_mem_upsert _ _, by rw [← hx, he0]⟩
      · exact ⟨h0, mem_upsert_of_ne hm0 hx, he0⟩
    · have hgx : g = x := by simpa using h2
      exact ⟨x, self_mem_upsert _ _, by rw [hgx]⟩

theorem parse_games_some {lines : List String} {out : List Game}
    (h : parse_games lines = some out) :
    ∃ raw, parseLoop lines none [] = some raw ∧
      out = List.insertionSort gameLE (dedupByUid raw) := by
  simp only [parse_games, Option.map_eq_some'] at h
  obtain ⟨raw, h1, h2⟩ := h
  exact ⟨raw, h1, h2.symm⟩

/-- Membership in the parser output comes from the raw scan (deduplication
then sorting only selects and permutes). -/
theorem mem_raw_of_mem_out {lines : List String} {out : List Game} {g : Game}
    (h : parse_games lines = some out) (hg : g ∈ out) :
    ∃ raw, parseLoop lines none [] = some raw ∧ g ∈ raw := by
  obtain ⟨raw, h1, h2⟩ := parse_games_some h
  rw [h2] at hg
  exact ⟨raw, h1, dedupByUid_sub ((List.perm_insertionSort gameLE _).mem_iff.mp hg)⟩

/-- Every game of a successful parse comes from `mkGame` with a valid
February day, an in-range hour and minute, and a matchup involving `SWE`. -/
theorem parse_games_shape {lines : List String} {out : List Game} {g : Game}
    (h : parse_games lines = some out) (hg : g ∈ out) :
    ∃ day hh mm a b v, (1 ≤ day ∧ day ≤ 28) ∧ hh ≤ 23 ∧ mm ≤ 59 ∧
      (a = "SWE" ∨ b = "SWE") ∧ g = mkGame day hh mm a b v := by
  obtain ⟨raw, h1, hgr⟩ := mem_raw_of_mem_out h hg
  rcases parseLoop_shape lines none [] raw (fun d hd => by cases hd) h1 g hgr with hin | hex
  · cases hin
  · exact hex

/-- C3: for every input line sequence, every Game the parser emits has
`dtend_utc` equal to `dtstart_utc` plus the fixed default duration of
2 hours 30 minutes (150 minutes), exactly. -/
theorem C3_end_eq_start_plus_duration (lines : List String) (out : List Game) (g : Game)
    (h : parse_games lines = some out) (hg : g ∈ out) :
    g.dtend_utc = g.dtstart_utc + DEFAULT_GAME_DURATION := by
  obtain ⟨day, hh, mm, a, b, v, _, _, _, _, he⟩ := parse_games_shape h hg
  rw [he]
  simp [mkGame]

theorem C3_witness :
    parse_games ["13 Feb", "FIN vs SWE", "12:10"] = some [mkGame 13 12 10 "FIN" "SWE" none] ∧
    (mkGame 13 12 10 "FIN" "SWE" none).dtend_utc
      = (mkGame 13 12 10 "FIN" "SWE" none).dtstart_utc + DEFAULT_GAME_DURATION :=
  ⟨by decide,
   C3_end_eq_start_plus_duration ["13 Feb", "FIN vs SWE", "12:10"]
     [mkGame 13 12 10 "FIN" "SWE" none] (mkGame 13 12 10 "FIN" "SWE" none)
     (by decide) (by decide)⟩

/-- C4: a matchup line in which neither three-letter code equals `SWE`
never contributes a Game: every emitted Game comes from a matchup with
`SWE` on one side, and the concrete input
`["13 Feb", "FIN vs CZE", "12:10"]` yields zero Games. -/
theorem C4_non_swe_contributes_nothing :
    parse_games ["13 Feb", "FIN vs CZE", "12:10"] = some [] ∧
    ∀ (lines : List String) (out : List Game) (g : Game),
      parse_games lines = some out → g ∈ out →
      ∃ day hh mm a b v, (a = "SWE" ∨ b = "SWE") ∧ g = mkGame day hh mm a b v := by
  refine ⟨by decide, ?_⟩
  intro lines out g h hg
  obtain ⟨day, hh, mm, a, b, v, _, _, _, hsw, he⟩ := parse_games_shape h hg
  exact ⟨day, hh, mm, a, b, v, hsw, he⟩

theorem C4_witness :
    parse_games ["13 Feb", "FIN vs SWE", "12:10"] = some [mkGame 13 12 10 "FIN" "SWE" none] ∧
    ∃ day hh mm a b v, (a = "SWE" ∨ b = "SWE") ∧
      mkGame 13 12 10 "FIN" "SWE" none = mkGame day hh mm a b v :=
  ⟨by decide,
   C4_non_swe_contributes_nothing.2 ["13 Feb", "FIN vs SWE", "12:10"]
     [mkGame 13 12 10 "FIN" "SWE" none] (mkGame 13 12 10 "FIN" "SWE" none)
     (by decide) (by decide)⟩

/-- C10: every emitted Game's start instant is the image of a local
wall-clock time lying on a valid day of February 2026 (day 1..28), the only
month and year the scan ever constructs. -/
theorem C10_start_in_feb_2026 (lines : List String) (out : List Game) (g : Game)
    (h : parse_games lines = some out) (hg : g ∈ out) :
    ∃ day hh mm, (1 ≤ day ∧ day ≤ 28) ∧ hh ≤ 23 ∧ mm ≤ 59 ∧
      g.dtstart_utc = localToUTC day hh mm := by
  obtain ⟨day, hh, mm, a, b, v, hday, hhh, hmm, _, he⟩ := parse_games_shape h hg
  refine ⟨day, hh, mm, hday, hhh, hmm, ?_⟩
  rw [he]
  simp [mkGame]

theorem C10_witness :
    parse_games ["21 Feb", "SWE vs KAZ", "08:00"] = some [mkGame 21 8 0 "SWE" "KAZ" none] ∧
    ∃ day hh mm, (1 ≤ day ∧ day ≤ 28) ∧ hh ≤ 23 ∧ mm ≤ 59 ∧
      (mkGame 21 8 0 "SWE" "KAZ" none).dtstart_utc = localToUTC day hh mm :=
  ⟨by decide,
   C10_start_in_feb_2026 ["21 Feb", "SWE vs KAZ", "08:00"]
     [mkGame 21 8 0 "SWE" "KAZ" none] (mkGame 21 8 0 "SWE" "KAZ" none)
     (by decide) (by decide)⟩

/-- C7: the Game list returned by the parser is sorted ascending by start
timestamp: each adjacent pair satisfies `dtstart_utc ≤ dtstart_utc`. -/
theorem C7_output_sorted (lines : List String) (out : List Game)
    (h : parse_games lines = some out) :
    List.Chain' (fun g1 g2 => g1.dtstart_utc ≤ g2.dtstart_utc) out := by
  obtain ⟨raw, _, h2⟩ := parse_games_some h
  rw [h2]
  exact (List.sorted_insertionSort gameLE _).chain'

theorem C7_witness :
    parse_games ["13 Feb", "SWE vs LAT", "12:10", "10 Feb", "SWE vs CZE", "10:00"]
      = some [mkGame 10 10 0 "SWE" "CZE" none, mkGame 13 12 10 "SWE" "LAT" none] ∧
    List.Chain' (fun g1 g2 => g1.dtstart_utc ≤ g2.dtstart_utc)
      [mkGame 10 10 0 "SWE" "CZE" none, mkGame 13 12 10 "SWE" "LAT" none] :=
  ⟨by decide,
   C7_output_sorted ["13 Feb", "SWE vs LAT", "12:10", "10 Feb", "SWE vs CZE", "10:00"]
     [mkGame 10 10 0 "SWE" "CZE" none, mkGame 13 12 10 "SWE" "LAT" none] (by decide)⟩

/-- C5: a matchup line met with a date context but with no line matching the
time pattern in the bounded forward window produces no Game: the scan
continues at the next line with identical state and accumulator. -/
theorem C5_no_time_skips (l : String) (rest : List String) (acc : List Game)
    (a b : String) (day : Nat) (hm : matchMatch l = some (a, b))
    (ht : ∀ s ∈ rest.take TIME_SEARCH_WINDOW, matchTime s = none) :
    parseLoop (l :: rest) (some day) acc = parseLoop rest (some day) acc := by
  have htn : findTime rest = none := List.findSome?_eq_none_iff.mpr ht
  exact parseLoop_skip_noTime hm htn

theorem C5_witness :
    parseLoop ["SWE vs FIN", "Palalido"] (some 13) [] = parseLoop ["Palalido"] (some 13) [] :=
  C5_no_time_skips "SWE vs FIN" ["Palalido"] [] "SWE" "FIN" 13 (by decide) (by decide)

/-- C6: a matchup line met before any date marker is silently skipped: no
Game is produced and the scan advances one line, state unchanged. -/
theorem C6_no_date_skips (l : String) (rest : List String) (acc : List Game)
    (a b : String) (hm : matchMatch l = some (a, b)) :
    parseLoop (l :: rest) none acc = parseLoop rest none acc :=
  parseLoop_match_noCur hm

theorem C6_witness :
    parseLoop ["SWE vs FIN", "12:10"] none [] = parseLoop ["12:10"] none [] :=
  C6_no_date_skips "SWE vs FIN" ["12:10"] [] "SWE" "FIN" (by decide)

/-- C9: the look-ahead windows do not consume lines: recording a Game
advances the cursor by exactly one line, so one time line can serve two
adjacent matchups — the concrete input yields two Games with equal start. -/
theorem C9_windows_not_consuming :
    (∀ (l : String) (rest : List String) (acc : List Game) (a b : String) (day hh mm : Nat),
      matchMatch l = some (a, b) → ¬(a ≠ "SWE" ∧ b ≠ "SWE") →
      findTime rest = some (hh, mm) → hh ≤ 23 ∧ mm ≤ 59 →
      parseLoop (l :: rest) (some day) acc
        = parseLoop rest (some day) (acc ++ [mkGame day hh mm a b (findVenue rest)])) ∧
    parse_games ["10 Feb", "SWE vs FIN", "SWE vs CZE", "12:10"]
      = some [mkGame 10 12 10 "SWE" "FIN" none, mkGame 10 12 10 "SWE" "CZE" none] ∧
    (mkGame 10 12 10 "SWE" "FIN" none).dtstart_utc
      = (mkGame 10 12 10 "SWE" "CZE" none).dtstart_utc := by
  refine ⟨?_, by decide, by decide⟩
  intro l rest acc a b day hh mm hm hsw ht hok
  exact parseLoop_record hm hsw ht hok

theorem C9_witness :
    parseLoop ["SWE vs FIN", "12:10"] (some 10) []
      = parseLoop ["12:10"] (some 10) ([] ++ [mkGame 10 12 10 "SWE" "FIN" (findVenue ["12:10"])]) :=
  C9_windows_not_consuming.1 "SWE vs FIN" ["12:10"] [] "SWE" "FIN" 10 12 10
    (by decide) (by decide) (by decide) (by decide)

/-- C1 counterexample: two scans of the same uid where the first-seen game
(venue "Arena") differs from the last-seen one (venue "Milano"); the
parser's output retains the last-seen instance, not the first-seen one. -/
theorem C1_counterexample :
    parseLoop ["10 Feb", "SWE vs FIN", "10:00", "Arena", "SWE vs FIN", "10:00", "Milano"] none []
      = some [mkGame 10 10 0 "SWE" "FIN" (some "Arena"),
              mkGame 10 10 0 "SWE" "FIN" (some "Milano")] ∧
    (mkGame 10 10 0 "SWE" "FIN" (some "Arena")).uid
      = (mkGame 10 10 0 "SWE" "FIN" (some "Milano")).uid ∧
    parse_games ["10 Feb", "SWE vs FIN", "10:00", "Arena", "SWE vs FIN", "10:00", "Milano"]
      = some [mkGame 10 10 0 "SWE" "FIN" (some "Milano")] ∧
    mkGame 10 10 0 "SWE" "FIN" (some "Arena") ≠ mkGame 10 10 0 "SWE" "FIN" (some "Milano") :=
  ⟨by decide, by decide, by decide, by decide⟩

/-- C1 (amended): when several parsed Games share a uid the output contains
exactly one Game with that uid, and the retained Game is the last-seen
instance of the scan (the dict comprehension overwrites on key collision). -/
theorem C1_amended_last_seen_wins (lines : List String) (raw out : List Game) (u : String)
    (hraw : parseLoop lines none [] = some raw) (hout : parse_games lines = some out)
    (hex : ∃ g, g ∈ raw ∧ g.uid = u) :
    ∃ g, g ∈ out ∧ g.uid = u ∧
      (raw.filter (fun x => x.uid == u)).getLast? = some g ∧
      ∀ g2 ∈ out, g2.uid = u → g2 = g := by
  obtain ⟨raw2, hraw2, h2⟩ := parse_games_some hout
  rw [hraw] at hraw2
  injection hraw2 with hre
  subst hre
  obtain ⟨g0, hg0, he0⟩ := hex
  obtain ⟨gk, hgk, hek⟩ := dedupByUid_covers hg0
  have hgout : gk ∈ out := by
    rw [h2]
    exact (List.perm_insertionSort gameLE _).mem_iff.mpr hgk
  have huid : gk.uid = u := by rw [hek, he0]
  refine ⟨gk, hgout, huid, ?_, ?_⟩
  · have hlast := dedupByUid_last hgk
    rw [huid] at hlast
    exact hlast
  · intro g2 hg2 he2
    have hg2d : g2 ∈ dedupByUid raw := by
      rw [h2] at hg2
      exact (List.perm_insertionSort gameLE _).mem_iff.mp hg2
    exact List.inj_on_of_nodup_map (dedupByUid_nodup raw) hg2d hgk (by rw [he2, huid])

theorem C1_witness :
    ∃ g, g ∈ [mkGame 10 10 0 "SWE" "FIN" (some "Milano")] ∧
      g.uid = "20260210T1000-SWEvsFIN@lundblaad.github.io" ∧
      (List.filter (fun x => x.uid == "20260210T1000-SWEvsFIN@lundblaad.github.io")
          [mkGame 10 10 0 "SWE" "FIN" (some "Arena"),
           mkGame 10 10 0 "SWE" "FIN" (some "Milano")]).getLast? = some g ∧
      ∀ g2 ∈ [mkGame 10 10 0 "SWE" "FIN" (some "Milano")],
        g2.uid = "20260210T1000-SWEvsFIN@lundblaad.github.io" → g2 = g :=
  C1_amended_last_seen_wins
    ["10 Feb", "SWE vs FIN", "10:00", "Arena", "SWE vs FIN", "10:00", "Milano"]
    [mkGame 10 10 0 "SWE" "FIN" (some "Arena"), mkGame 10 10 0 "SWE" "FIN" (some "Milano")]
    [mkGame 10 10 0 "SWE" "FIN" (some "Milano")]
    "20260210T1000-SWEvsFIN@lundblaad.github.io"
    (by decide) (by decide)
    ⟨mkGame 10 10 0 "SWE" "FIN" (some "Arena"), by decide, by decide⟩

/-- C2 counterexample: on `["13 Feb", "FIN vs SWE", "12:10", "Palalido"]`
the single emitted Game has no location — "Palalido" contains none of the
venue keywords (Milano, Cortina, Arena, Ice, Forum), so the best-effort
venue detection attaches nothing, contradicting the claimed location. -/
theorem C2_counterexample :
    parse_games ["13 Feb", "FIN vs SWE", "12:10", "Palalido"]
      = some [mkGame 13 12 10 "FIN" "SWE" none] ∧
    (mkGame 13 12 10 "FIN" "SWE" none).location ≠ some "Palalido" :=
  ⟨by decide, by decide⟩

/-- C2 (amended): the input `["13 Feb", "FIN vs SWE", "12:10", "Palalido"]`
yields exactly one Game with opponent FIN in the summary, start 13 Feb 2026
12:10 local (Europe/Rome) converted to UTC, end equal to start plus 2h30m,
and no location (the venue heuristic does not recognise "Palalido"). -/
theorem C2_amended_one_game :
    parse_games ["13 Feb", "FIN vs SWE", "12:10", "Palalido"]
      = some [{ uid := "20260213T1210-FINvsSWE@lundblaad.github.io",
                dtstart_utc := localToUTC 13 12 10,
                dtend_utc := localToUTC 13 12 10 + DEFAULT_GAME_DURATION,
                summary := "Sweden vs FIN (Men's Ice Hockey)",
                location := none }] := by
  decide

/-- C8 counterexample: an input whose date-marker lines all carry valid
February days (only "10 Feb") on which the parse nevertheless aborts: the
line "99:99" matches the time pattern and `replace(hour=99)` raises. -/
theorem C8_counterexample :
    datesValid ["10 Feb", "SWE vs FIN", "99:99"] ∧
    parse_games ["10 Feb", "SWE vs FIN", "99:99"] = none :=
  ⟨by decide, by decide⟩

/-- C8 (amended): the parser is total under the precondition that every
date-marker line carries a valid February day (1..28) AND every
time-pattern line carries an in-range hour and minute; outside the date
precondition the claim's example "30 Feb" aborts the parse. -/
theorem C8_amended_totality :
    (∀ lines : List String, datesValid lines → timesValid lines →
      (parse_games lines).isSome = true) ∧
    parse_games ["30 Feb", "SWE vs FIN", "12:10"] = none := by
  refine ⟨?_, by decide⟩
  intro lines hdv htv
  have hs := parseLoop_total lines none [] hdv htv
  rw [Option.isSome_iff_exists] at hs
  obtain ⟨raw, hraw⟩ := hs
  simp [parse_games, hraw]

theorem C8_witness :
    (parse_games ["10 Feb", "SWE vs FIN", "12:10"]).isSome = true :=
  C8_amended_totality.1 ["10 Feb", "SWE vs FIN", "12:10"] (by decide) (by decide)
